import Mathlib

/-!
Verification development for `main.go` (argon2 hashing endpoint)

The Go program is embedded shallowly:

* Go strings and byte slices are lists of bytes (`List Byte`); `len` is `List.length`.
* `uint32` values are natural numbers; every place where Go truncates to 32 bits
  carries an explicit `% 2 ^ 32`.
* Methods with pointer receivers return the updated value of what they mutate.
* The `for` loop of `createHash` is a fuel-indexed function returning `Option`.
* The external collaborators (`argon2.IDKey`, `json.Decoder.Decode`) are parameters;
  `base64.RawStdEncoding.EncodeToString` is transcribed from the Go standard library.
* `createHashOrPanic` repeats `createHash` with the panic of `argon2.IDKey` at key length
  zero made explicit; the two agree whenever the former returns.
-/

namespace OnePass

/-! ## Data model -/

/-- One byte of a Go string or byte slice. -/
abbrev Byte := Fin 256

/-- The size of the `uint32` range. -/
abbrev u32 : Nat := 2 ^ 32

/-- Go `type Request struct`. `Size` is a `uint32`. -/
structure Request where
  Password : List Byte
  Salt : List Byte
  Size : Nat
deriving DecidableEq, Repr

/-- Go `type Response struct`. `Size` is a `uint32`. -/
structure Response where
  Hashed : List Byte
  Size : Nat
deriving DecidableEq, Repr

/-- Go `type ErrorResponse struct`. -/
structure ErrorResponse where
  Errors : List String
deriving DecidableEq, Repr

/-- Go `type Params struct`. -/
structure Params where
  Memory : Nat
  Iterations : Nat
  Parallelism : Nat
deriving DecidableEq, Repr

/-- Go `var DefaultParams`. -/
def DefaultParams : Params :=
  { Memory := 64 * 1024, Iterations := 3, Parallelism := 2 }

/-- A Go `error` value: all the program ever does with one is call `Error()`. -/
structure GoError where
  msg : String
deriving DecidableEq, Repr

/-- Go `err.Error()`. -/
def GoError.Error (e : GoError) : String := e.msg

/-- Go `ErrBadRequest`. -/
def ErrBadRequest : GoError := ⟨"The request is malformed"⟩

/-- Go `ErrPasswordTooShort`. -/
def ErrPasswordTooShort : GoError := ⟨"The password is too short"⟩

/-- Go `ErrSaltTooShort`. -/
def ErrSaltTooShort : GoError := ⟨"The salt is too short"⟩

/-- Go `errorToStringArray`. -/
def errorToStringArray (err : GoError) : List String :=
  [err.Error]

/-- Go `errorArrayToStringArray`. -/
def errorArrayToStringArray (errs : List GoError) : List String :=
  errs.map GoError.Error

/-! ## `encoding/base64`, `RawStdEncoding` -/

/-- The alphabet of `base64.StdEncoding` (Go constant `encodeStd`). -/
def encodeStd : List Char :=
  "ABCDEFGHIJKLMNOPQRSTUVWXYZabcdefghijklmnopqrstuvwxyz0123456789+/".toList

/-- The lookup `enc.encode[i]` in the 64-entry table built from `encodeStd`. -/
def encodeTable (i : Nat) : Byte :=
  match encodeStd.get? i with
  | some c => Fin.ofNat c.toNat
  | none => 0

/-- The padding character `=` that `StdEncoding` would append and `RawStdEncoding` does not. -/
def StdPadding : Byte := 61

/-- Go `base64.RawStdEncoding.EncodeToString` (`Encoding.Encode` with `padChar = NoPadding`):
full groups of three bytes give four characters, a remainder of two bytes gives three
characters, a remainder of one byte gives two characters. -/
def EncodeToString : List Byte → List Byte
  | a :: b :: c :: rest =>
      let val := (a.val <<< 16) ||| (b.val <<< 8) ||| c.val
      encodeTable ((val >>> 18) &&& 0x3F) :: encodeTable ((val >>> 12) &&& 0x3F) ::
        encodeTable ((val >>> 6) &&& 0x3F) :: encodeTable (val &&& 0x3F) ::
        EncodeToString rest
  | [a, b] =>
      let val := (a.val <<< 16) ||| (b.val <<< 8)
      [encodeTable ((val >>> 18) &&& 0x3F), encodeTable ((val >>> 12) &&& 0x3F),
        encodeTable ((val >>> 6) &&& 0x3F)]
  | [a] =>
      let val := a.val <<< 16
      [encodeTable ((val >>> 18) &&& 0x3F), encodeTable ((val >>> 12) &&& 0x3F)]
  | [] => []

/-- Go `Encoding.EncodedLen` for an unpadded encoding. -/
def EncodedLen (n : Nat) : Nat :=
  n / 3 * 4 + (n % 3 * 8 + 5) / 6

/-! ## The deriver -/

/-- The signature of `argon2.IDKey(password, salt, time, memory, threads, keyLen)`. -/
abbrev KDF := List Byte → List Byte → Nat → Nat → Nat → Nat → List Byte

/-- The idealised contract of the key-derivation primitive: the key has exactly `keyLen`
bytes, for every `keyLen`. The library meets it for `keyLen ≥ 1` only (see
`KDF.ExactNonzero`); a validated request never asks for fewer than 6 bytes. -/
def KDF.Exact (IDKey : KDF) : Prop :=
  ∀ password salt time memory threads keyLen,
    (IDKey password salt time memory threads keyLen).length = keyLen

/-- Go `(*Request).convertB64Size`:
`request.Size = uint32(math.Floor(3 * (float64(request.Size) / 4)))`.
The `float64` arithmetic is exact on these operands (a `uint32` has at most 32
significant bits, dividing by 4 only changes the exponent, and the product with 3 has at
most 34 significant bits), so it is carried out in the rationals. -/
def convertB64Size (request : Request) : Request :=
  { request with Size := Int.toNat ⌊(3 : ℚ) * ((request.Size : ℚ) / 4)⌋ % u32 }

/-- The variables the loop of `createHash` reads and writes, together with a log of the
`keyLen` argument of every `argon2.IDKey` invocation (oldest first). The log is
instrumentation: nothing in the program reads it. -/
structure HashState where
  request : Request
  response : Response
  kdfCalls : List Nat
deriving DecidableEq, Repr

/-- One execution of the body of the `for` loop of `createHash`. -/
def createHashBody (IDKey : KDF) (st : HashState) : HashState :=
  let key := IDKey st.request.Password st.request.Salt DefaultParams.Iterations
    DefaultParams.Memory DefaultParams.Parallelism st.request.Size
  let hashed := EncodeToString key
  { request := { st.request with Size := (st.request.Size + 1) % u32 }
    response := { Hashed := hashed, Size := hashed.length % u32 }
    kdfCalls := st.kdfCalls ++ [st.request.Size] }

/-- The loop `for response.Size < sizeWanted { ... }`. Each evaluation of the loop condition
consumes one unit of fuel; `none` means the fuel ran out before the condition failed. -/
def createHashLoop (IDKey : KDF) (sizeWanted : Nat) : Nat → HashState → Option HashState
  | 0, _ => none
  | fuel + 1, st =>
      if st.response.Size < sizeWanted then
        createHashLoop IDKey sizeWanted fuel (createHashBody IDKey st)
      else
        some st

/-- Go `(*Response).createHash(request *Request)`. The result holds the request and the
response as the call leaves them. -/
def createHash (IDKey : KDF) (fuel : Nat) (response : Response) (request : Request) :
    Option HashState :=
  let sizeWanted := request.Size
  let request := convertB64Size request
  createHashLoop IDKey sizeWanted fuel { request := request, response := response, kdfCalls := [] }

/-- The zero value `Response{}`. -/
def Response.zero : Response := { Hashed := [], Size := 0 }

/-! ## The validator -/

/-- Go `(*Request).validate`: the collected errors and the request as the call leaves it. -/
def validate (request : Request) : List GoError × Request :=
  let errs : List GoError := []
  let errs := if request.Password.length < 8 then errs ++ [ErrPasswordTooShort] else errs
  let errs := if request.Salt.length < 8 then errs ++ [ErrSaltTooShort] else errs
  let request := if request.Size < 8 then { request with Size := 8 } else request
  (errs, request)

/-! ## The HTTP handler -/

/-- The argument of a `json.Marshal` call of the program; the marshalled bytes are represented
by the value they encode. -/
inductive Json where
  | errorResponse (v : ErrorResponse)
  | response (v : Response)
deriving DecidableEq, Repr

/-- Go `json.Marshal` on the two struct types of the program. Marshalling a struct of
strings and unsigned integers has no failing path, so the returned error is always `nil`. -/
def jsonMarshal (v : Json) : Except GoError Json :=
  .ok v

/-- Go `http.StatusBadRequest`. -/
def StatusBadRequest : Nat := 400

/-- Go `http.StatusOK`. -/
def StatusOK : Nat := 200

/-- What an `http.ResponseWriter` has received: the header map, the status code once it is
fixed, and the payloads written (oldest first). -/
structure ResponseWriter where
  header : List (String × String)
  status : Option Nat
  written : List Json
deriving DecidableEq, Repr

/-- Go `w.Header().Set(key, value)`. -/
def ResponseWriter.HeaderSet (w : ResponseWriter) (key value : String) : ResponseWriter :=
  { w with header := (key, value) :: w.header.filter fun kv => kv.1 ≠ key }

/-- Go `w.WriteHeader(code)`: the first status code sent is the one that counts. -/
def ResponseWriter.WriteHeader (w : ResponseWriter) (code : Nat) : ResponseWriter :=
  match w.status with
  | none => { w with status := some code }
  | some _ => w

/-- Go `w.Write(data)`: sends status 200 first when no status has been sent. -/
def ResponseWriter.Write (w : ResponseWriter) (data : Json) : ResponseWriter :=
  let w := w.WriteHeader StatusOK
  { w with written := w.written ++ [data] }

/-- A writer nothing has been sent to. -/
def ResponseWriter.fresh : ResponseWriter :=
  { header := [], status := none, written := [] }

/-- Go `handleErrResponse`; `none` is the `panic(err)` branch. -/
def handleErrResponse (err : GoError) (w : ResponseWriter) : Option ResponseWriter :=
  let w := w.WriteHeader StatusBadRequest
  let errResponse : ErrorResponse := { Errors := errorToStringArray err }
  match jsonMarshal (.errorResponse errResponse) with
  | .error _ => none
  | .ok responseJSON => some (w.Write responseJSON)

/-- Go `handleErrsResponse`; `none` is the `panic(err)` branch. -/
def handleErrsResponse (errs : List GoError) (w : ResponseWriter) : Option ResponseWriter :=
  let w := w.WriteHeader StatusBadRequest
  let errResponse : ErrorResponse := { Errors := errorArrayToStringArray errs }
  match jsonMarshal (.errorResponse errResponse) with
  | .error _ => none
  | .ok responseJSON => some (w.Write responseJSON)

/-- Go `handleResponse`. -/
def handleResponse (response : Response) (w : ResponseWriter) : Option ResponseWriter :=
  match jsonMarshal (.response response) with
  | .error err => handleErrResponse err w
  | .ok responseJSON => some ((w.WriteHeader StatusOK).Write responseJSON)

/-- What one run of `handleRequest` leaves behind: the writer, and the log of
`argon2.IDKey` invocations made while serving (empty when `createHash` was not reached). -/
structure Served where
  w : ResponseWriter
  kdfCalls : List Nat
deriving DecidableEq, Repr

/-- Go `handleRequest`. `Decode` stands for `json.NewDecoder(r.Body).Decode(&request)` applied
to the zero `Request`: it yields either the decoding error or the decoded request. `none`
means that the run did not complete (a panic, or the loop of `createHash` out of fuel). -/
def handleRequest (Decode : List Byte → Except GoError Request) (IDKey : KDF) (fuel : Nat)
    (w : ResponseWriter) (body : List Byte) : Option Served :=
  let w := w.HeaderSet "Content-Type" "application/json"
  match Decode body with
  | .error err => (handleErrResponse err w).map fun w => { w := w, kdfCalls := [] }
  | .ok request =>
      let (errs, request) := validate request
      if errs.length ≠ 0 then
        (handleErrsResponse errs w).map fun w => { w := w, kdfCalls := [] }
      else
        let response := Response.zero
        match createHash IDKey fuel response request with
        | none => none
        | some st => (handleResponse st.response w).map fun w => { w := w, kdfCalls := st.kdfCalls }

/-- The state `createHash` is predicted to leave behind, by residue of the wanted size. -/
def createHashFinal (IDKey : KDF) (request : Request) : HashState :=
  let g := 3 * request.Size / 4
  let key := fun n => IDKey request.Password request.Salt DefaultParams.Iterations
    DefaultParams.Memory DefaultParams.Parallelism n
  if request.Size = 0 then
    { request := { request with Size := 0 }, response := Response.zero, kdfCalls := [] }
  else if request.Size % 4 = 1 then
    { request := { request with Size := g + 2 }
      response := { Hashed := EncodeToString (key (g + 1)), Size := request.Size + 1 }
      kdfCalls := [g, g + 1] }
  else
    { request := { request with Size := g + 1 }
      response := { Hashed := EncodeToString (key g), Size := request.Size }
      kdfCalls := [g] }

/-! ## The deriver against the library's behaviour at key length zero

`argon2.IDKey` is not total: asked for a key of zero bytes it panics (`blake2b.New(0, nil)`
fails and the hash it did not return is written to). The definitions below repeat
`createHash` with that panic made explicit; whenever no zero-length key is requested they
agree with the definitions above. -/

/-- The contract of the key-derivation primitive where it returns at all: a key of
`keyLen ≥ 1` bytes has exactly `keyLen` bytes. Nothing is said about `keyLen = 0`. -/
def KDF.ExactNonzero (IDKey : KDF) : Prop :=
  ∀ password salt time memory threads keyLen, 1 ≤ keyLen →
    (IDKey password salt time memory threads keyLen).length = keyLen

/-- A call of `argon2.IDKey` as the library behaves: `none` is the panic at `keyLen = 0`. -/
def IDKeyOrPanic (IDKey : KDF) (password salt : List Byte) (time memory threads keyLen : Nat) :
    Option (List Byte) :=
  if keyLen = 0 then none else some (IDKey password salt time memory threads keyLen)

/-- How a run of `createHash` ends. -/
inductive Outcome where
  | returned (st : HashState)
  | panicked
  | outOfFuel
deriving DecidableEq, Repr

/-- One execution of the body of the `for` loop of `createHash`; `none` when the call of
`argon2.IDKey` panics. -/
def createHashBodyOrPanic (IDKey : KDF) (st : HashState) : Option HashState :=
  match IDKeyOrPanic IDKey st.request.Password st.request.Salt DefaultParams.Iterations
      DefaultParams.Memory DefaultParams.Parallelism st.request.Size with
  | none => none
  | some key =>
      let hashed := EncodeToString key
      some { request := { st.request with Size := (st.request.Size + 1) % u32 }
             response := { Hashed := hashed, Size := hashed.length % u32 }
             kdfCalls := st.kdfCalls ++ [st.request.Size] }

/-- The loop `for response.Size < sizeWanted { ... }` with the panic of `argon2.IDKey`. Each
evaluation of the loop condition consumes one unit of fuel. -/
def createHashLoopOrPanic (IDKey : KDF) (sizeWanted : Nat) : Nat → HashState → Outcome
  | 0, _ => .outOfFuel
  | fuel + 1, st =>
      if st.response.Size < sizeWanted then
        match createHashBodyOrPanic IDKey st with
        | none => .panicked
        | some st' => createHashLoopOrPanic IDKey sizeWanted fuel st'
      else
        .returned st

/-- Go `(*Response).createHash(request *Request)` with the panic of `argon2.IDKey`. -/
def createHashOrPanic (IDKey : KDF) (fuel : Nat) (response : Response) (request : Request) :
    Outcome :=
  let sizeWanted := request.Size
  let request := convertB64Size request
  createHashLoopOrPanic IDKey sizeWanted fuel
    { request := request, response := response, kdfCalls := [] }

/-! ## Sample inputs -/

/-- The bytes of an ASCII string literal. -/
def bytes (s : String) : List Byte :=
  s.toList.map fun c => Fin.ofNat c.toNat

/-- A key-derivation function that meets `KDF.Exact`: `keyLen` zero bytes. -/
def zeroKDF : KDF :=
  fun _ _ _ _ _ keyLen => List.replicate keyLen 0

/-- The request `password = "password", salt = "saltsalt", size = 8`. -/
def passwordRequest : Request :=
  { Password := bytes "password", Salt := bytes "saltsalt", Size := 8 }

/-- A valid request asking for a size of 9 characters. -/
def nineRequest : Request :=
  { Password := bytes "password", Salt := bytes "saltsalt", Size := 9 }

/-- A valid request asking for the largest `uint32` size. -/
def topRequest : Request :=
  { Password := bytes "password", Salt := bytes "saltsalt", Size := 4294967295 }

/-- A valid request asking for the largest `uint32` size that needs a second derivation. -/
def nearTopRequest : Request :=
  { Password := bytes "password", Salt := bytes "saltsalt", Size := 4294967293 }

/-- A request asking for a size of 1 character, as `createHash` would see it if it were
called without `validate`. -/
def sizeOneRequest : Request :=
  { Password := bytes "password", Salt := bytes "saltsalt", Size := 1 }

/-- The request `password = "short", salt = "saltsalt", size = 8`. -/
def shortRequest : Request :=
  { Password := bytes "short", Salt := bytes "saltsalt", Size := 8 }

/-- A decoder that rejects every body the way `encoding/json` rejects a truncated object. -/
def failingDecode : List Byte → Except GoError Request :=
  fun _ => .error ⟨"unexpected EOF"⟩

/-- A decoder that yields the same request for every body. -/
def constDecode (request : Request) : List Byte → Except GoError Request :=
  fun _ => .ok request

/-! ## Auxiliary facts -/

theorem EncodeToString_length (src : List Byte) :
    (EncodeToString src).length = EncodedLen src.length := by
  induction src using EncodeToString.induct with
  | case1 a b c rest ih =>
      simp only [EncodeToString, List.length_cons, ih, EncodedLen]
      omega
  | case2 a b => simp [EncodeToString, EncodedLen]
  | case3 a => simp [EncodeToString, EncodedLen]
  | case4 => simp [EncodeToString, EncodedLen]

theorem encodeTable_mem (i : Nat) (h : i < 64) :
    encodeTable i ∈ encodeStd.map fun c => (Fin.ofNat c.toNat : Byte) := by
  have key : ∀ j : Fin 64,
      encodeTable j.val ∈ encodeStd.map fun c => (Fin.ofNat c.toNat : Byte) := by decide
  exact key ⟨i, h⟩

theorem StdPadding_not_mem :
    StdPadding ∉ encodeStd.map fun c => (Fin.ofNat c.toNat : Byte) := by decide

theorem and_63_lt (n : Nat) : n &&& 0x3F < 64 :=
  Nat.lt_succ_of_le Nat.and_le_right

theorem EncodeToString_alphabet (src : List Byte) :
    ∀ ch ∈ EncodeToString src, ch ∈ encodeStd.map fun c => (Fin.ofNat c.toNat : Byte) := by
  induction src using EncodeToString.induct with
  | case1 a b c rest ih =>
      intro ch hch
      simp only [EncodeToString, List.mem_cons] at hch
      rcases hch with h | h | h | h | h
      · exact h ▸ encodeTable_mem _ (and_63_lt _)
      · exact h ▸ encodeTable_mem _ (and_63_lt _)
      · exact h ▸ encodeTable_mem _ (and_63_lt _)
      · exact h ▸ encodeTable_mem _ (and_63_lt _)
      · exact ih ch h
  | case2 a b =>
      intro ch hch
      simp only [EncodeToString, List.mem_cons, List.mem_singleton, List.not_mem_nil,
        or_false] at hch
      rcases hch with h | h | h
      · exact h ▸ encodeTable_mem _ (and_63_lt _)
      · exact h ▸ encodeTable_mem _ (and_63_lt _)
      · exact h ▸ encodeTable_mem _ (and_63_lt _)
  | case3 a =>
      intro ch hch
      simp only [EncodeToString, List.mem_cons, List.mem_singleton, List.not_mem_nil,
        or_false] at hch
      rcases hch with h | h
      · exact h ▸ encodeTable_mem _ (and_63_lt _)
      · exact h ▸ encodeTable_mem _ (and_63_lt _)
  | case4 => intro ch hch; simp [EncodeToString] at hch

theorem EncodeToString_unpadded (src : List Byte) : StdPadding ∉ EncodeToString src :=
  fun h => StdPadding_not_mem (EncodeToString_alphabet src _ h)

theorem floor_three_quarters (s : Nat) :
    Int.toNat ⌊(3 : ℚ) * ((s : ℚ) / 4)⌋ = 3 * s / 4 := by
  have h : (3 : ℚ) * ((s : ℚ) / 4) = ((3 * s : ℕ) : ℚ) / ((4 : ℕ) : ℚ) := by
    push_cast; ring
  rw [h, Int.floor_toNat, Nat.floor_div_eq_div]

theorem convertB64Size_Size (request : Request) (h : request.Size < u32) :
    (convertB64Size request).Size = 3 * request.Size / 4 := by
  simp only [convertB64Size, floor_three_quarters]
  apply Nat.mod_eq_of_lt
  simp only [u32] at *
  omega

theorem convertB64Size_eq (request : Request) (h : request.Size < u32) :
    convertB64Size request = { request with Size := 3 * request.Size / 4 } := by
  have := convertB64Size_Size request h
  simp only [convertB64Size] at this ⊢
  rw [this]

theorem EncodedLen_guess (s : Nat) :
    EncodedLen (3 * s / 4) = if s % 4 = 1 then s - 1 else s := by
  unfold EncodedLen
  have h4 : s % 4 = 0 ∨ s % 4 = 1 ∨ s % 4 = 2 ∨ s % 4 = 3 := by omega
  have h3 : 3 * s / 4 % 3 = 0 ∨ 3 * s / 4 % 3 = 1 ∨ 3 * s / 4 % 3 = 2 := by omega
  rcases h4 with h | h | h | h <;> rcases h3 with h' | h' | h' <;>
    simp only [h, h', if_true] <;> norm_num <;> omega

theorem EncodedLen_guess_succ (s : Nat) (h : s % 4 = 1) :
    EncodedLen (3 * s / 4 + 1) = s + 1 := by
  unfold EncodedLen
  omega

theorem EncodedLen_mono {m n : Nat} (h : m ≤ n) : EncodedLen m ≤ EncodedLen n := by
  unfold EncodedLen
  omega

theorem createHash_run_core (IDKey : KDF) (request : Request) (hs : request.Size < u32)
    (hl0 : request.Size ≠ 0 →
      (EncodeToString (IDKey request.Password request.Salt DefaultParams.Iterations
        DefaultParams.Memory DefaultParams.Parallelism (3 * request.Size / 4))).length =
          EncodedLen (3 * request.Size / 4))
    (hl1 : (EncodeToString (IDKey request.Password request.Salt DefaultParams.Iterations
        DefaultParams.Memory DefaultParams.Parallelism (3 * request.Size / 4 + 1))).length =
          EncodedLen (3 * request.Size / 4 + 1))
    (fuel : Nat) (hf : 3 ≤ fuel) :
    createHash IDKey fuel Response.zero request = some (createHashFinal IDKey request) := by
  obtain ⟨n, rfl⟩ : ∃ n, fuel = n + 3 := ⟨fuel - 3, by omega⟩
  obtain ⟨pw, salt, s⟩ := request
  simp only at hs hl0 hl1
  have hg := EncodedLen_guess s
  have hc : convertB64Size { Password := pw, Salt := salt, Size := s } =
      { Password := pw, Salt := salt, Size := 3 * s / 4 } := convertB64Size_eq _ hs
  simp only [createHash, hc, createHashFinal]
  by_cases h0 : s = 0
  · subst h0
    simp [createHashLoop, Response.zero]
  · by_cases h1 : s % 4 = 1
    · have hg1 := EncodedLen_guess_succ s h1
      rw [if_pos h1] at hg
      have l0 := (hl0 h0).trans hg
      have l1 := hl1.trans hg1
      have e1 : (s - 1) % u32 = s - 1 := Nat.mod_eq_of_lt (by omega)
      have e2 : (s + 1) % u32 = s + 1 := Nat.mod_eq_of_lt (by simp only [u32] at *; omega)
      have e3 : (3 * s / 4 + 1) % u32 = 3 * s / 4 + 1 :=
        Nat.mod_eq_of_lt (by simp only [u32] at *; omega)
      have e4 : (3 * s / 4 + 1 + 1) % u32 = 3 * s / 4 + 2 :=
        Nat.mod_eq_of_lt (by simp only [u32] at *; omega)
      have c1 : 0 < s := by omega
      have c2 : s - 1 < s := by omega
      have c3 : ¬ (s + 1 < s) := by omega
      simp only [createHashLoop, createHashBody, Response.zero, l0, l1, e1, e2, e3, e4,
        c1, c2, c3, if_true, if_false, h0, h1, List.nil_append, List.cons_append]
    · rw [if_neg h1] at hg
      have l0 := (hl0 h0).trans hg
      have e1 : s % u32 = s := Nat.mod_eq_of_lt hs
      have e3 : (3 * s / 4 + 1) % u32 = 3 * s / 4 + 1 :=
        Nat.mod_eq_of_lt (by simp only [u32] at *; omega)
      have c1 : 0 < s := by omega
      have c3 : ¬ (s < s) := by omega
      simp only [createHashLoop, createHashBody, Response.zero, l0, e1, e3,
        c1, c3, if_true, if_false, h0, h1, List.nil_append]

theorem createHash_run (IDKey : KDF) (hk : IDKey.Exact) (request : Request)
    (hs : request.Size < u32) (fuel : Nat) (hf : 3 ≤ fuel) :
    createHash IDKey fuel Response.zero request = some (createHashFinal IDKey request) :=
  createHash_run_core IDKey request hs
    (fun _ => by rw [EncodeToString_length, hk]) (by rw [EncodeToString_length, hk]) fuel hf

theorem createHash_run_nonzero (IDKey : KDF) (hk : IDKey.ExactNonzero) (request : Request)
    (hs : request.Size < u32) (h2 : 2 ≤ request.Size) (fuel : Nat) (hf : 3 ≤ fuel) :
    createHash IDKey fuel Response.zero request = some (createHashFinal IDKey request) :=
  createHash_run_core IDKey request hs
    (fun _ => by rw [EncodeToString_length, hk _ _ _ _ _ _ (by omega)])
    (by rw [EncodeToString_length, hk _ _ _ _ _ _ (by omega)]) fuel hf

theorem createHashLoopOrPanic_returned (IDKey : KDF) (sizeWanted fuel : Nat)
    (st st' : HashState)
    (h : createHashLoopOrPanic IDKey sizeWanted fuel st = .returned st') :
    createHashLoop IDKey sizeWanted fuel st = some st' := by
  induction fuel generalizing st with
  | zero => simp [createHashLoopOrPanic] at h
  | succ fuel ih =>
      simp only [createHashLoopOrPanic] at h
      simp only [createHashLoop]
      by_cases hc : st.response.Size < sizeWanted
      · simp only [hc, if_true] at h ⊢
        by_cases hz : st.request.Size = 0
        · simp [createHashBodyOrPanic, IDKeyOrPanic, hz] at h
        · simp only [createHashBodyOrPanic, IDKeyOrPanic, hz, if_false] at h
          exact ih _ h
      · simp only [hc, if_false] at h ⊢
        cases h
        rfl

theorem createHashOrPanic_returned (IDKey : KDF) (fuel : Nat) (response : Response)
    (request : Request) (st : HashState)
    (h : createHashOrPanic IDKey fuel response request = .returned st) :
    createHash IDKey fuel response request = some st :=
  createHashLoopOrPanic_returned IDKey _ fuel _ st h

theorem createHashLoopOrPanic_of_nonzero (IDKey : KDF) (sizeWanted fuel : Nat)
    (st st' : HashState) (h : createHashLoop IDKey sizeWanted fuel st = some st')
    (hz : st.request.Size ≠ 0) (hb : st.request.Size + fuel < u32) :
    createHashLoopOrPanic IDKey sizeWanted fuel st = .returned st' := by
  induction fuel generalizing st with
  | zero => simp [createHashLoop] at h
  | succ fuel ih =>
      simp only [createHashLoop] at h
      simp only [createHashLoopOrPanic]
      by_cases hc : st.response.Size < sizeWanted
      · simp only [hc, if_true] at h ⊢
        simp only [createHashBodyOrPanic, IDKeyOrPanic, hz, if_false]
        have hm : (st.request.Size + 1) % u32 = st.request.Size + 1 :=
          Nat.mod_eq_of_lt (by omega)
        apply ih _ h
        · show (st.request.Size + 1) % u32 ≠ 0
          rw [hm]; omega
        · show (st.request.Size + 1) % u32 + fuel < u32
          rw [hm]; omega
      · simp only [hc, if_false] at h ⊢
        cases h
        rfl

theorem createHashLoopOrPanic_more_fuel (IDKey : KDF) (sizeWanted fuel extra : Nat)
    (st st' : HashState)
    (h : createHashLoopOrPanic IDKey sizeWanted fuel st = .returned st') :
    createHashLoopOrPanic IDKey sizeWanted (fuel + extra) st = .returned st' := by
  induction fuel generalizing st with
  | zero => simp [createHashLoopOrPanic] at h
  | succ fuel ih =>
      rw [Nat.add_right_comm]
      simp only [createHashLoopOrPanic] at h ⊢
      by_cases hc : st.response.Size < sizeWanted
      · simp only [hc, if_true] at h ⊢
        cases hb : createHashBodyOrPanic IDKey st with
        | none => simp [hb] at h
        | some st1 =>
            simp only [hb] at h ⊢
            exact ih _ h
      · simp only [hc, if_false] at h ⊢
        exact h

theorem createHashOrPanic_run (IDKey : KDF) (hk : IDKey.ExactNonzero) (request : Request)
    (hs : request.Size < u32) (h2 : 2 ≤ request.Size) (fuel : Nat) (hf : 3 ≤ fuel) :
    createHashOrPanic IDKey fuel Response.zero request =
      .returned (createHashFinal IDKey request) := by
  obtain ⟨n, rfl⟩ : ∃ n, fuel = 3 + n := ⟨fuel - 3, by omega⟩
  have hrun := createHash_run_nonzero IDKey hk request hs h2 3 (Nat.le_refl 3)
  have hc := convertB64Size_Size request hs
  unfold createHash at hrun
  unfold createHashOrPanic
  apply createHashLoopOrPanic_more_fuel
  apply createHashLoopOrPanic_of_nonzero _ _ _ _ _ hrun
  · show (convertB64Size request).Size ≠ 0
    rw [hc]; omega
  · show (convertB64Size request).Size + 3 < u32
    rw [hc]; simp only [u32] at *; omega

theorem zeroKDF_exactNonzero : KDF.ExactNonzero zeroKDF := by
  intro _ _ _ _ _ keyLen _
  simp [zeroKDF]

theorem zeroKDF_exact : KDF.Exact zeroKDF := by
  intro _ _ _ _ _ keyLen
  simp [zeroKDF]

theorem validate_fst (request : Request) :
    (validate request).1 =
      (if request.Password.length < 8 then [ErrPasswordTooShort] else []) ++
        (if request.Salt.length < 8 then [ErrSaltTooShort] else []) := by
  unfold validate
  by_cases hp : request.Password.length < 8 <;> by_cases hs : request.Salt.length < 8 <;>
    simp [hp, hs]

theorem validate_snd (request : Request) :
    (validate request).2 = { request with Size := max request.Size 8 } := by
  unfold validate
  by_cases h : request.Size < 8
  · simp [h, Nat.max_eq_right (Nat.le_of_lt h)]
  · simp [h, Nat.max_eq_left (Nat.le_of_not_lt h)]

theorem validate_snd_Size_lt (request : Request) (hs : request.Size < u32) :
    (validate request).2.Size < u32 := by
  rw [validate_snd]
  simp only [u32] at *
  omega

theorem handleRequest_decode_error (Decode : List Byte → Except GoError Request) (IDKey : KDF)
    (fuel : Nat) (body : List Byte) (err : GoError) (hd : Decode body = .error err) :
    handleRequest Decode IDKey fuel ResponseWriter.fresh body =
      some { w := { header := [("Content-Type", "application/json")]
                    status := some StatusBadRequest
                    written := [Json.errorResponse { Errors := [err.Error] }] }
             kdfCalls := [] } := by
  simp only [handleRequest, hd]
  rfl

theorem handleRequest_invalid (Decode : List Byte → Except GoError Request) (IDKey : KDF)
    (fuel : Nat) (body : List Byte) (request : Request) (hd : Decode body = .ok request)
    (hv : (validate request).1 ≠ []) :
    handleRequest Decode IDKey fuel ResponseWriter.fresh body =
      some { w := { header := [("Content-Type", "application/json")]
                    status := some StatusBadRequest
                    written :=
                      [Json.errorResponse { Errors := (validate request).1.map GoError.Error }] }
             kdfCalls := [] } := by
  have hlen : ¬ (validate request).1.length = 0 := by
    simpa [List.length_eq_zero] using hv
  simp only [handleRequest, hd, ne_eq, hlen, not_false_eq_true, if_true]
  rfl

theorem handleRequest_valid (Decode : List Byte → Except GoError Request) (IDKey : KDF)
    (fuel : Nat) (body : List Byte) (request : Request) (st : HashState)
    (hd : Decode body = .ok request) (hv : (validate request).1 = [])
    (hrun : createHash IDKey fuel Response.zero (validate request).2 = some st) :
    handleRequest Decode IDKey fuel ResponseWriter.fresh body =
      some { w := { header := [("Content-Type", "application/json")]
                    status := some StatusOK
                    written := [Json.response st.response] }
             kdfCalls := st.kdfCalls } := by
  simp only [handleRequest, hd, hv, hrun]
  rfl

/-! ## The claims -/

/-- C1: for every request on which `validate` reports no violation, `createHash` on the zero
`Response`, with a key-derivation function that returns exactly the requested number of
bytes, returns and leaves `response.Size` at least the (normalised) size the request carried
on entry; this covers the whole `uint32` range. -/
theorem createHash_size_ge (IDKey : KDF) (hk : IDKey.Exact) (request : Request)
    (hs : request.Size < u32) (_hv : (validate request).1 = []) (fuel : Nat) (hf : 3 ≤ fuel) :
    ∃ st, createHash IDKey fuel Response.zero (validate request).2 = some st ∧
      (validate request).2.Size ≤ st.response.Size := by
  refine ⟨_, createHash_run IDKey hk _ (validate_snd_Size_lt request hs) fuel hf, ?_⟩
  simp only [createHashFinal, Response.zero]
  split_ifs with h0 h1
  · simp [h0]
  · simp
  · simp

/-- Witness for C1 at the top of the `uint32` range (size `4294967295`). -/
theorem createHash_size_ge_witness :
    KDF.Exact zeroKDF ∧ topRequest.Size < u32 ∧ (validate topRequest).1 = [] ∧
      ∃ st, createHash zeroKDF 3 Response.zero (validate topRequest).2 = some st ∧
        (validate topRequest).2.Size ≤ st.response.Size :=
  ⟨zeroKDF_exact, by decide, by decide,
    createHash_size_ge zeroKDF zeroKDF_exact topRequest (by decide) (by decide) 3 (by decide)⟩

/-- C2 (minimality): for every validated request, `createHash` returns the encoding of the
key of the last raw length it tried; the encoding of a key one byte shorter is strictly
shorter than the wanted size, no smaller raw length has an encoding that meets the wanted
size, and the first raw length tried, `3 * size / 4`, is not above the one returned. -/
theorem createHash_minimal (IDKey : KDF) (hk : IDKey.Exact) (request : Request)
    (hs : request.Size < u32) (_hv : (validate request).1 = []) (fuel : Nat) (hf : 3 ≤ fuel) :
    ∃ st rawLength,
      createHash IDKey fuel Response.zero (validate request).2 = some st ∧
      8 ≤ (validate request).2.Size ∧
      st.kdfCalls.getLast? = some rawLength ∧
      st.response.Hashed = EncodeToString (IDKey request.Password request.Salt
        DefaultParams.Iterations DefaultParams.Memory DefaultParams.Parallelism rawLength) ∧
      1 ≤ rawLength ∧
      (EncodeToString (IDKey request.Password request.Salt DefaultParams.Iterations
        DefaultParams.Memory DefaultParams.Parallelism (rawLength - 1))).length
          < (validate request).2.Size ∧
      (∀ m, (validate request).2.Size ≤ (EncodeToString (IDKey request.Password request.Salt
        DefaultParams.Iterations DefaultParams.Memory DefaultParams.Parallelism m)).length →
          rawLength ≤ m) ∧
      st.kdfCalls.head? = some (3 * (validate request).2.Size / 4) ∧
      3 * (validate request).2.Size / 4 ≤ rawLength := by
  have hlen : ∀ k, (EncodeToString (IDKey request.Password request.Salt
      DefaultParams.Iterations DefaultParams.Memory DefaultParams.Parallelism k)).length
        = EncodedLen k := by
    intro k; rw [EncodeToString_length, hk]
  have hrun := createHash_run IDKey hk _ (validate_snd_Size_lt request hs) fuel hf
  rw [validate_snd] at hrun ⊢
  simp only [hlen]
  generalize hS : max request.Size 8 = S at hrun ⊢
  have h8 : 8 ≤ S := by omega
  have h0 : S ≠ 0 := by omega
  by_cases h1 : S % 4 = 1
  · refine ⟨_, 3 * S / 4 + 1, hrun, h8, ?_, ?_, ?_, ?_, ?_, ?_, ?_⟩
    · simp [createHashFinal, h0, h1]
    · simp [createHashFinal, h0, h1]
    · omega
    · have := EncodedLen_guess S
      rw [if_pos h1] at this
      simp only [Nat.add_sub_cancel, this]
      omega
    · intro m hm
      by_contra hlt
      have hle : m ≤ 3 * S / 4 := by omega
      have := EncodedLen_mono hle
      have hg := EncodedLen_guess S
      rw [if_pos h1] at hg
      omega
    · simp [createHashFinal, h0, h1]
    · omega
  · refine ⟨_, 3 * S / 4, hrun, h8, ?_, ?_, ?_, ?_, ?_, ?_, ?_⟩
    · simp [createHashFinal, h0, h1]
    · simp [createHashFinal, h0, h1]
    · omega
    · unfold EncodedLen
      omega
    · intro m hm
      by_contra hlt
      have hle : m ≤ 3 * S / 4 - 1 := by omega
      have := EncodedLen_mono hle
      have : EncodedLen (3 * S / 4 - 1) < S := by
        unfold EncodedLen
        omega
      omega
    · simp [createHashFinal, h0, h1]
    · omega

/-- Witness for C2 at `size = 9`, where the first guess (6 bytes) is too short. -/
theorem createHash_minimal_witness :
    KDF.Exact zeroKDF ∧ nineRequest.Size < u32 ∧ (validate nineRequest).1 = [] ∧
    ∃ st rawLength,
      createHash zeroKDF 3 Response.zero (validate nineRequest).2 = some st ∧
      8 ≤ (validate nineRequest).2.Size ∧
      st.kdfCalls.getLast? = some rawLength ∧
      st.response.Hashed = EncodeToString (zeroKDF nineRequest.Password nineRequest.Salt
        DefaultParams.Iterations DefaultParams.Memory DefaultParams.Parallelism rawLength) ∧
      1 ≤ rawLength ∧
      (EncodeToString (zeroKDF nineRequest.Password nineRequest.Salt DefaultParams.Iterations
        DefaultParams.Memory DefaultParams.Parallelism (rawLength - 1))).length
          < (validate nineRequest).2.Size ∧
      (∀ m, (validate nineRequest).2.Size ≤ (EncodeToString (zeroKDF nineRequest.Password
        nineRequest.Salt DefaultParams.Iterations DefaultParams.Memory
        DefaultParams.Parallelism m)).length → rawLength ≤ m) ∧
      st.kdfCalls.head? = some (3 * (validate nineRequest).2.Size / 4) ∧
      3 * (validate nineRequest).2.Size / 4 ≤ rawLength :=
  ⟨zeroKDF_exact, by decide, by decide,
    createHash_minimal zeroKDF zeroKDF_exact nineRequest (by decide) (by decide) 3 (by decide)⟩

/-- C3: for every validated request, `createHash` on the zero `Response` returns, and
the raw length `rawLength` of its last `argon2.IDKey` invocation (at least 6, one less than
the final `request.Size`) is such that `response.Hashed` is the whole unpadded base64
encoding of the `rawLength`-byte key derived from the request's password and salt under
`DefaultParams`: it has the full encoded length of `rawLength` bytes, holds no padding
character, is not empty and meets the wanted size; `response.Size` is the length of
`response.Hashed`. The key-derivation function is only assumed exact at nonzero lengths. -/
theorem createHash_untruncated (IDKey : KDF) (hk : IDKey.ExactNonzero) (request : Request)
    (hs : request.Size < u32) (_hv : (validate request).1 = []) (fuel : Nat) (hf : 3 ≤ fuel) :
    ∃ st rawLength,
      createHash IDKey fuel Response.zero (validate request).2 = some st ∧
      st.kdfCalls.getLast? = some rawLength ∧
      st.request.Size = rawLength + 1 ∧
      6 ≤ rawLength ∧
      (IDKey request.Password request.Salt DefaultParams.Iterations DefaultParams.Memory
        DefaultParams.Parallelism rawLength).length = rawLength ∧
      st.response.Hashed = EncodeToString (IDKey request.Password request.Salt
        DefaultParams.Iterations DefaultParams.Memory DefaultParams.Parallelism rawLength) ∧
      st.response.Hashed.length = EncodedLen rawLength ∧
      StdPadding ∉ st.response.Hashed ∧
      st.response.Size = st.response.Hashed.length ∧
      (validate request).2.Size ≤ st.response.Hashed.length ∧
      st.response.Hashed ≠ [] := by
  have hlen : ∀ k, 1 ≤ k → (EncodeToString (IDKey request.Password request.Salt
      DefaultParams.Iterations DefaultParams.Memory DefaultParams.Parallelism k)).length
        = EncodedLen k := by
    intro k hk1; rw [EncodeToString_length, hk _ _ _ _ _ _ hk1]
  have hne : ∀ l : List Byte, 8 ≤ l.length → l ≠ [] := by
    intro l hl h
    rw [h] at hl
    simp at hl
  have h2 : 2 ≤ (validate request).2.Size := by
    rw [validate_snd]
    exact Nat.le_trans (by decide) (Nat.le_max_right _ _)
  have hrun := createHash_run_nonzero IDKey hk _ (validate_snd_Size_lt request hs) h2 fuel hf
  rw [validate_snd] at hrun ⊢
  generalize hS : max request.Size 8 = S at hrun ⊢
  have h8 : 8 ≤ S := by omega
  have h0 : S ≠ 0 := by omega
  by_cases h1 : S % 4 = 1
  · have hL : (EncodeToString (IDKey request.Password request.Salt DefaultParams.Iterations
        DefaultParams.Memory DefaultParams.Parallelism (3 * S / 4 + 1))).length = S + 1 := by
      rw [hlen _ (by omega), EncodedLen_guess_succ S h1]
    refine ⟨_, 3 * S / 4 + 1, hrun, ?_, ?_, by omega, hk _ _ _ _ _ _ (by omega),
      ?_, ?_, ?_, ?_, ?_, ?_⟩
    · simp [createHashFinal, h0, h1]
    · simp [createHashFinal, h0, h1]
    · simp [createHashFinal, h0, h1]
    · simp only [createHashFinal, h0, h1, if_true, if_false]
      exact hlen _ (by omega)
    · simp only [createHashFinal, h0, h1, if_true, if_false]
      exact EncodeToString_unpadded _
    · simp only [createHashFinal, h0, h1, if_true, if_false]
      exact hL.symm
    · simp only [createHashFinal, h0, h1, if_true, if_false, hL]
      omega
    · simp only [createHashFinal, h0, h1, if_true, if_false]
      exact hne _ (by rw [hL]; omega)
  · have hg := EncodedLen_guess S
    rw [if_neg h1] at hg
    have hL : (EncodeToString (IDKey request.Password request.Salt DefaultParams.Iterations
        DefaultParams.Memory DefaultParams.Parallelism (3 * S / 4))).length = S := by
      rw [hlen _ (by omega), hg]
    refine ⟨_, 3 * S / 4, hrun, ?_, ?_, by omega, hk _ _ _ _ _ _ (by omega),
      ?_, ?_, ?_, ?_, ?_, ?_⟩
    · simp [createHashFinal, h0, h1]
    · simp [createHashFinal, h0, h1]
    · simp [createHashFinal, h0, h1]
    · simp only [createHashFinal, h0, h1, if_false]
      exact hlen _ (by omega)
    · simp only [createHashFinal, h0, h1, if_false]
      exact EncodeToString_unpadded _
    · simp only [createHashFinal, h0, h1, if_false]
      exact hL.symm
    · simp only [createHashFinal, h0, h1, if_false, hL]
      omega
    · simp only [createHashFinal, h0, h1, if_false]
      exact hne _ (by rw [hL]; omega)

/-- Witness for C3 at the request `"password"`, `"saltsalt"`, size 8. -/
theorem createHash_untruncated_witness :
    KDF.ExactNonzero zeroKDF ∧ passwordRequest.Size < u32 ∧
    (validate passwordRequest).1 = [] ∧
    ∃ st rawLength,
      createHash zeroKDF 3 Response.zero (validate passwordRequest).2 = some st ∧
      st.kdfCalls.getLast? = some rawLength ∧
      st.request.Size = rawLength + 1 ∧
      6 ≤ rawLength ∧
      (zeroKDF passwordRequest.Password passwordRequest.Salt DefaultParams.Iterations
        DefaultParams.Memory DefaultParams.Parallelism rawLength).length = rawLength ∧
      st.response.Hashed = EncodeToString (zeroKDF passwordRequest.Password
        passwordRequest.Salt DefaultParams.Iterations DefaultParams.Memory
        DefaultParams.Parallelism rawLength) ∧
      st.response.Hashed.length = EncodedLen rawLength ∧
      StdPadding ∉ st.response.Hashed ∧
      st.response.Size = st.response.Hashed.length ∧
      (validate passwordRequest).2.Size ≤ st.response.Hashed.length ∧
      st.response.Hashed ≠ [] :=
  ⟨zeroKDF_exactNonzero, by decide, by decide,
    createHash_untruncated zeroKDF zeroKDF_exactNonzero passwordRequest (by decide) (by decide)
      3 (by decide)⟩

/-- C4: `validate` returns exactly the `PasswordTooShort` violation when the password has fewer
than 8 bytes followed by the `SaltTooShort` violation when the salt has fewer than 8 bytes,
and nothing else; both checks always run. A 4-byte password with a 4-byte salt yields both
violations, password first; `"short"` with `"saltsalt"` and size 8 yields exactly
`PasswordTooShort`. -/
theorem validate_violations (request : Request) :
    (ErrPasswordTooShort ∈ (validate request).1 ↔ request.Password.length < 8) ∧
    (ErrSaltTooShort ∈ (validate request).1 ↔ request.Salt.length < 8) ∧
    (validate request).1 ⊆ [ErrPasswordTooShort, ErrSaltTooShort] ∧
    (validate request).1 =
      (if request.Password.length < 8 then [ErrPasswordTooShort] else []) ++
        (if request.Salt.length < 8 then [ErrSaltTooShort] else []) ∧
    (∀ (a b c d e f g h : Byte) (size : Nat),
      (validate { Password := [a, b, c, d], Salt := [e, f, g, h], Size := size }).1 =
        [ErrPasswordTooShort, ErrSaltTooShort]) ∧
    (validate shortRequest).1 = [ErrPasswordTooShort] := by
  have hne : ErrPasswordTooShort ≠ ErrSaltTooShort := by decide
  refine ⟨?_, ?_, ?_, validate_fst request, ?_, by decide⟩
  · rw [validate_fst]
    by_cases hp : request.Password.length < 8 <;> by_cases hs : request.Salt.length < 8 <;>
      simp [hp, hs, hne]
  · rw [validate_fst]
    by_cases hp : request.Password.length < 8 <;> by_cases hs : request.Salt.length < 8 <;>
      simp [hp, hs, hne.symm]
  · rw [validate_fst]
    by_cases hp : request.Password.length < 8 <;> by_cases hs : request.Salt.length < 8 <;>
      simp [hp, hs]
  · intro a b c d e f g h size
    rw [validate_fst]
    simp

/-- C5 (normalisation): for every password, salt and size below 8, `validate` gives the same
violations and the same request as with size 8, and `createHash` after it returns the same
state as with size 8 (the encoding of a 6-byte key, size 8); for every request `validate`
sets the size to `max size 8` and leaves password and salt alone, so the size is at least 8
before derivation. -/
theorem validate_normalises (IDKey : KDF) (hk : IDKey.Exact) (password salt : List Byte)
    (size : Nat) (hs : size < 8) (fuel : Nat) (hf : 3 ≤ fuel) :
    validate { Password := password, Salt := salt, Size := size } =
      validate { Password := password, Salt := salt, Size := 8 } ∧
    createHash IDKey fuel Response.zero
        (validate { Password := password, Salt := salt, Size := size }).2 =
      createHash IDKey fuel Response.zero
        (validate { Password := password, Salt := salt, Size := 8 }).2 ∧
    (createHash IDKey fuel Response.zero
        (validate { Password := password, Salt := salt, Size := size }).2).map
          (fun st => st.response) =
      some { Hashed := EncodeToString (IDKey password salt DefaultParams.Iterations
                DefaultParams.Memory DefaultParams.Parallelism 6),
             Size := 8 } ∧
    (∀ r : Request, (validate r).2 = { r with Size := max r.Size 8 } ∧
      (validate r).2.Password = r.Password ∧ (validate r).2.Salt = r.Salt ∧
      8 ≤ (validate r).2.Size) := by
  have hv : validate { Password := password, Salt := salt, Size := size } =
      validate { Password := password, Salt := salt, Size := 8 } := by
    apply Prod.ext
    · rw [validate_fst, validate_fst]
    · rw [validate_snd, validate_snd]
      simp only [Request.mk.injEq, true_and]
      omega
  refine ⟨hv, by rw [hv], ?_, ?_⟩
  · have h8 : (validate { Password := password, Salt := salt, Size := 8 }).2 =
        { Password := password, Salt := salt, Size := 8 } := by
      rw [validate_snd]
      rfl
    have hlt : ({ Password := password, Salt := salt, Size := 8 } : Request).Size < u32 := by
      show 8 < u32
      decide
    rw [hv, h8, createHash_run IDKey hk _ hlt fuel hf]
    simp [createHashFinal]
  · intro r
    rw [validate_snd]
    exact ⟨rfl, rfl, rfl, Nat.le_max_right _ _⟩

/-- Witness for C5 at size 0. -/
theorem validate_normalises_witness :
    KDF.Exact zeroKDF ∧ 0 < 8 ∧
    (validate { Password := bytes "password", Salt := bytes "saltsalt", Size := 0 } =
      validate { Password := bytes "password", Salt := bytes "saltsalt", Size := 8 } ∧
    createHash zeroKDF 3 Response.zero
        (validate { Password := bytes "password", Salt := bytes "saltsalt", Size := 0 }).2 =
      createHash zeroKDF 3 Response.zero
        (validate { Password := bytes "password", Salt := bytes "saltsalt", Size := 8 }).2 ∧
    (createHash zeroKDF 3 Response.zero
        (validate { Password := bytes "password", Salt := bytes "saltsalt", Size := 0 }).2).map
          (fun st => st.response) =
      some { Hashed := EncodeToString (zeroKDF (bytes "password") (bytes "saltsalt")
                DefaultParams.Iterations DefaultParams.Memory DefaultParams.Parallelism 6),
             Size := 8 } ∧
    (∀ r : Request, (validate r).2 = { r with Size := max r.Size 8 } ∧
      (validate r).2.Password = r.Password ∧ (validate r).2.Salt = r.Salt ∧
      8 ≤ (validate r).2.Size)) :=
  ⟨zeroKDF_exact, by decide,
    validate_normalises zeroKDF zeroKDF_exact (bytes "password") (bytes "saltsalt") 0
      (by decide) 3 (by decide)⟩

/-- C6: for every successfully decoded request `handleRequest` completes and writes exactly one
payload. If `validate` reports violations the status is 400, the payload is the error
envelope with the message of every violation in the order of `validate` (same length, not
empty), and `argon2.IDKey` was not invoked. If `validate` reports none the status is 200 and
the payload is the `Response` that `createHash` computed. The two cases exclude each other. -/
theorem handleRequest_envelopes (Decode : List Byte → Except GoError Request) (IDKey : KDF)
    (hk : IDKey.Exact) (fuel : Nat) (hf : 3 ≤ fuel) (body : List Byte) (request : Request)
    (hd : Decode body = .ok request) (hs : request.Size < u32) :
    ∃ served, handleRequest Decode IDKey fuel ResponseWriter.fresh body = some served ∧
      (((validate request).1 ≠ [] ∧
          served.w.status = some StatusBadRequest ∧
          served.w.written =
            [Json.errorResponse { Errors := (validate request).1.map GoError.Error }] ∧
          ((validate request).1.map GoError.Error).length = (validate request).1.length ∧
          (validate request).1.map GoError.Error ≠ [] ∧
          served.kdfCalls = []) ∨
        ((validate request).1 = [] ∧
          served.w.status = some StatusOK ∧
          ∃ st, createHash IDKey fuel Response.zero (validate request).2 = some st ∧
            served.w.written = [Json.response st.response] ∧
            served.kdfCalls = st.kdfCalls)) ∧
      (served.w.status = some StatusBadRequest ↔ (validate request).1 ≠ []) ∧
      (served.w.status = some StatusOK ↔ (validate request).1 = []) := by
  by_cases hv : (validate request).1 = []
  · have hrun := createHash_run IDKey hk _ (validate_snd_Size_lt request hs) fuel hf
    refine ⟨_, handleRequest_valid Decode IDKey fuel body request _ hd hv hrun,
      Or.inr ⟨hv, rfl, _, hrun, rfl, rfl⟩, ?_, ?_⟩
    · simp [hv, StatusOK, StatusBadRequest]
    · simp [hv]
  · refine ⟨_, handleRequest_invalid Decode IDKey fuel body request hd hv,
      Or.inl ⟨hv, rfl, rfl, by simp, by simpa using hv, rfl⟩, ?_, ?_⟩
    · simp [hv]
    · simp [hv, StatusOK, StatusBadRequest]

/-- Witness for C6 at the request `"short"`, `"saltsalt"`, size 8, which fails validation. -/
theorem handleRequest_envelopes_witness :
    KDF.Exact zeroKDF ∧ 3 ≤ 3 ∧ constDecode shortRequest [] = .ok shortRequest ∧
    shortRequest.Size < u32 ∧
    ∃ served, handleRequest (constDecode shortRequest) zeroKDF 3 ResponseWriter.fresh [] =
        some served ∧
      (((validate shortRequest).1 ≠ [] ∧
          served.w.status = some StatusBadRequest ∧
          served.w.written =
            [Json.errorResponse { Errors := (validate shortRequest).1.map GoError.Error }] ∧
          ((validate shortRequest).1.map GoError.Error).length =
            (validate shortRequest).1.length ∧
          (validate shortRequest).1.map GoError.Error ≠ [] ∧
          served.kdfCalls = []) ∨
        ((validate shortRequest).1 = [] ∧
          served.w.status = some StatusOK ∧
          ∃ st, createHash zeroKDF 3 Response.zero (validate shortRequest).2 = some st ∧
            served.w.written = [Json.response st.response] ∧
            served.kdfCalls = st.kdfCalls)) ∧
      (served.w.status = some StatusBadRequest ↔ (validate shortRequest).1 ≠ []) ∧
      (served.w.status = some StatusOK ↔ (validate shortRequest).1 = []) :=
  ⟨zeroKDF_exact, by decide, rfl, by decide,
    handleRequest_envelopes (constDecode shortRequest) zeroKDF zeroKDF_exact 3 (by decide) []
      shortRequest rfl (by decide)⟩

/-- C7, evaluated on the body `{`, which `encoding/json` rejects with `unexpected EOF`:
`handleRequest` answers 400 with a one-element `errors` list and derives nothing, but the
element is the text of the decoding error, not the text of `ErrBadRequest`. -/
theorem handleRequest_decode_error_text :
    handleRequest failingDecode zeroKDF 3 ResponseWriter.fresh (bytes "\x7b") =
      some { w := { header := [("Content-Type", "application/json")]
                    status := some StatusBadRequest
                    written := [Json.errorResponse { Errors := ["unexpected EOF"] }] }
             kdfCalls := [] } ∧
    "unexpected EOF" ≠ ErrBadRequest.Error ∧
    ErrBadRequest.Error = "The request is malformed" :=
  ⟨rfl, by decide, rfl⟩

/-- C8 (termination): for every `uint32` wanted size, `createHash` on the zero `Response`
returns as soon as the loop condition may be evaluated three times; `argon2.IDKey` is invoked
at most twice, every raw length passed to it is at most `3 * size / 4 + 1`, and none of the
32-bit truncations loses anything: the converted size, every incremented `request.Size` and
every encoded length are below `2 ^ 32`. -/
theorem createHash_terminates (IDKey : KDF) (hk : IDKey.Exact) (request : Request)
    (hs : request.Size < u32) :
    ∃ st, (∀ fuel, 3 ≤ fuel → createHash IDKey fuel Response.zero request = some st) ∧
      st.kdfCalls.length ≤ 2 ∧
      (∀ n ∈ st.kdfCalls, n ≤ 3 * request.Size / 4 + 1) ∧
      Int.toNat ⌊(3 : ℚ) * ((request.Size : ℚ) / 4)⌋ < u32 ∧
      (∀ n ∈ st.kdfCalls, n + 1 < u32 ∧
        (EncodeToString (IDKey request.Password request.Salt DefaultParams.Iterations
          DefaultParams.Memory DefaultParams.Parallelism n)).length < u32) ∧
      st.request.Size = 3 * request.Size / 4 + st.kdfCalls.length ∧
      st.response.Size = st.response.Hashed.length := by
  have hlen : ∀ k, (EncodeToString (IDKey request.Password request.Salt
      DefaultParams.Iterations DefaultParams.Memory DefaultParams.Parallelism k)).length
        = EncodedLen k := by
    intro k; rw [EncodeToString_length, hk]
  have hg := EncodedLen_guess request.Size
  refine ⟨_, fun fuel hf => createHash_run IDKey hk request hs fuel hf, ?_, ?_, ?_, ?_, ?_, ?_⟩
  · simp only [createHashFinal]
    split_ifs <;> simp
  · simp only [createHashFinal]
    split_ifs <;> simp
  · rw [floor_three_quarters]
    simp only [u32] at *
    omega
  · simp only [createHashFinal, hlen]
    split_ifs with h0 h1
    · simp
    · have hg1 := EncodedLen_guess_succ request.Size h1
      rw [if_pos h1] at hg
      simp only [List.mem_cons, List.mem_singleton, List.not_mem_nil, or_false]
      rintro n (rfl | rfl)
      · rw [hg]; simp only [u32] at *; omega
      · rw [hg1]; simp only [u32] at *; omega
    · rw [if_neg h1] at hg
      simp only [List.mem_singleton]
      rintro n rfl
      rw [hg]; simp only [u32] at *; omega
  · simp only [createHashFinal]
    split_ifs with h0 h1
    · simp [h0]
    · simp
    · simp
  · simp only [createHashFinal, hlen]
    split_ifs with h0 h1
    · simp [Response.zero]
    · simp [hlen, EncodedLen_guess_succ request.Size h1]
    · rw [if_neg h1] at hg
      simp [hlen, hg]

/-- Witness for C8 at size `4294967293`, where two derivations are needed. -/
theorem createHash_terminates_witness :
    KDF.Exact zeroKDF ∧ nearTopRequest.Size < u32 ∧
    ∃ st, (∀ fuel, 3 ≤ fuel → createHash zeroKDF fuel Response.zero nearTopRequest = some st) ∧
      st.kdfCalls.length ≤ 2 ∧
      (∀ n ∈ st.kdfCalls, n ≤ 3 * nearTopRequest.Size / 4 + 1) ∧
      Int.toNat ⌊(3 : ℚ) * ((nearTopRequest.Size : ℚ) / 4)⌋ < u32 ∧
      (∀ n ∈ st.kdfCalls, n + 1 < u32 ∧
        (EncodeToString (zeroKDF nearTopRequest.Password nearTopRequest.Salt
          DefaultParams.Iterations DefaultParams.Memory DefaultParams.Parallelism n)).length
            < u32) ∧
      st.request.Size = 3 * nearTopRequest.Size / 4 + st.kdfCalls.length ∧
      st.response.Size = st.response.Hashed.length :=
  ⟨zeroKDF_exact, by decide,
    createHash_terminates zeroKDF zeroKDF_exact nearTopRequest (by decide)⟩

/-- C9, refuted at the request `"password"`, `"saltsalt"`, size 8: validation passes, and
`createHash` returns with `request.Size = 7`, not the 8 it held before the call. -/
theorem createHash_overwrites_request_size :
    KDF.Exact zeroKDF ∧ (validate passwordRequest).1 = [] ∧
    (validate passwordRequest).2.Size = 8 ∧
    ∃ st, createHash zeroKDF 3 Response.zero (validate passwordRequest).2 = some st ∧
      st.request.Size = 7 ∧ st.request.Size ≠ (validate passwordRequest).2.Size :=
  ⟨zeroKDF_exact, by decide, by decide, _,
    createHash_run zeroKDF zeroKDF_exact (validate passwordRequest).2 (by decide) 3 (by decide),
    by decide, by decide⟩

/-- C9 as amended: for every validated request, `createHash` on the zero `Response` returns
with the request's password and salt as they were before the call; `request.Size` is
overwritten with the last raw length passed to `argon2.IDKey` plus one, which is
`3 * size / 4` plus the number of invocations and is smaller than the size before the call. -/
theorem createHash_frame (IDKey : KDF) (hk : IDKey.Exact) (request : Request)
    (hs : request.Size < u32) (_hv : (validate request).1 = []) (fuel : Nat) (hf : 3 ≤ fuel) :
    ∃ st, createHash IDKey fuel Response.zero (validate request).2 = some st ∧
      st.request.Password = (validate request).2.Password ∧
      st.request.Salt = (validate request).2.Salt ∧
      st.kdfCalls.getLast? = some (st.request.Size - 1) ∧
      1 ≤ st.request.Size ∧
      st.request.Size = 3 * (validate request).2.Size / 4 + st.kdfCalls.length ∧
      st.request.Size < (validate request).2.Size := by
  have hrun := createHash_run IDKey hk _ (validate_snd_Size_lt request hs) fuel hf
  rw [validate_snd] at hrun ⊢
  generalize hS : max request.Size 8 = S at hrun ⊢
  have h8 : 8 ≤ S := by omega
  have h0 : S ≠ 0 := by omega
  refine ⟨_, hrun, ?_, ?_, ?_, ?_, ?_, ?_⟩
  · simp only [createHashFinal]
    split_ifs <;> rfl
  · simp only [createHashFinal]
    split_ifs <;> rfl
  · simp only [createHashFinal, h0, if_false]
    split_ifs <;> simp
  · simp only [createHashFinal, h0, if_false]
    split_ifs <;> simp
  · simp only [createHashFinal, h0, if_false]
    split_ifs <;> simp
  · simp only [createHashFinal, h0, if_false]
    split_ifs with h1
    · simp only
      omega
    · simp only
      omega

/-- Witness for the amended C9 at the request `"password"`, `"saltsalt"`, size 9. -/
theorem createHash_frame_witness :
    KDF.Exact zeroKDF ∧ nineRequest.Size < u32 ∧ (validate nineRequest).1 = [] ∧
    ∃ st, createHash zeroKDF 3 Response.zero (validate nineRequest).2 = some st ∧
      st.request.Password = (validate nineRequest).2.Password ∧
      st.request.Salt = (validate nineRequest).2.Salt ∧
      st.kdfCalls.getLast? = some (st.request.Size - 1) ∧
      1 ≤ st.request.Size ∧
      st.request.Size = 3 * (validate nineRequest).2.Size / 4 + st.kdfCalls.length ∧
      st.request.Size < (validate nineRequest).2.Size :=
  ⟨zeroKDF_exact, by decide, by decide,
    createHash_frame zeroKDF zeroKDF_exact nineRequest (by decide) (by decide) 3 (by decide)⟩

/-- C10, refuted at size 1: the first raw length is `3 * 1 / 4 = 0`, the first
`argon2.IDKey` invocation asks for a key of zero bytes and panics, so `createHash` does
not return a `response.Size` of 2. -/
theorem createHash_size_one_panics :
    sizeOneRequest.Size = 1 ∧ (convertB64Size sizeOneRequest).Size = 0 ∧
    createHashOrPanic zeroKDF 3 Response.zero sizeOneRequest = Outcome.panicked := by
  have hc : convertB64Size sizeOneRequest = { sizeOneRequest with Size := 0 } :=
    convertB64Size_eq sizeOneRequest (by decide)
  refine ⟨rfl, ?_, ?_⟩
  · rw [hc]
  · simp only [createHashOrPanic, hc]
    decide

/-- C10 as amended (closed form from size 2 on): for every wanted size `s` with
`2 ≤ s < 2 ^ 32`, `createHash` on the zero `Response`, run against an `argon2.IDKey`
that panics at key length zero and is exact elsewhere, returns `response.Size = s` after
one derivation at raw length `3 * s / 4` when `s % 4` is 0, 2 or 3, and
`response.Size = s + 1` after two derivations, the last at raw length `3 * s / 4 + 1`,
when `s % 4 = 1`; `response.Hashed` encodes the key of the last derivation, the overshoot
is at most one character, and for `s = 8` the result is the 8-character encoding of a
6-byte key. -/
theorem createHash_closed_form (IDKey : KDF) (hk : IDKey.ExactNonzero) (request : Request)
    (hs : request.Size < u32) (h2 : 2 ≤ request.Size) (fuel : Nat) (hf : 3 ≤ fuel) :
    ∃ st, createHashOrPanic IDKey fuel Response.zero request = .returned st ∧
      ((request.Size % 4 = 0 ∨ request.Size % 4 = 2 ∨ request.Size % 4 = 3) →
        st.response.Size = request.Size ∧ st.kdfCalls = [3 * request.Size / 4] ∧
        st.response.Hashed = EncodeToString (IDKey request.Password request.Salt
          DefaultParams.Iterations DefaultParams.Memory DefaultParams.Parallelism
          (3 * request.Size / 4))) ∧
      (request.Size % 4 = 1 →
        st.response.Size = request.Size + 1 ∧
        st.kdfCalls = [3 * request.Size / 4, 3 * request.Size / 4 + 1] ∧
        st.response.Hashed = EncodeToString (IDKey request.Password request.Salt
          DefaultParams.Iterations DefaultParams.Memory DefaultParams.Parallelism
          (3 * request.Size / 4 + 1))) ∧
      request.Size ≤ st.response.Size ∧ st.response.Size ≤ request.Size + 1 ∧
      st.response.Size = st.response.Hashed.length ∧
      (∀ n ∈ st.kdfCalls, 1 ≤ n) ∧
      (request.Size = 8 →
        st.response.Hashed = EncodeToString (IDKey request.Password request.Salt
          DefaultParams.Iterations DefaultParams.Memory DefaultParams.Parallelism 6) ∧
        (IDKey request.Password request.Salt DefaultParams.Iterations DefaultParams.Memory
          DefaultParams.Parallelism 6).length = 6 ∧
        st.response.Hashed.length = 8 ∧ st.response.Size = 8) := by
  have h0 : request.Size ≠ 0 := by omega
  have hlen : ∀ k, 1 ≤ k → (EncodeToString (IDKey request.Password request.Salt
      DefaultParams.Iterations DefaultParams.Memory DefaultParams.Parallelism k)).length
        = EncodedLen k := by
    intro k hk1; rw [EncodeToString_length, hk _ _ _ _ _ _ hk1]
  have hg := EncodedLen_guess request.Size
  refine ⟨_, createHashOrPanic_run IDKey hk request hs h2 fuel hf, ?_, ?_, ?_, ?_, ?_, ?_, ?_⟩
  · intro hr
    have hn : ¬ request.Size % 4 = 1 := by omega
    simp [createHashFinal, h0, hn]
  · intro hr
    simp [createHashFinal, h0, hr]
  · simp only [createHashFinal, h0, if_false]
    split_ifs <;> simp
  · simp only [createHashFinal, h0, if_false]
    split_ifs <;> simp
  · simp only [createHashFinal, h0, if_false]
    split_ifs with h1
    · simp only
      rw [hlen _ (by omega), EncodedLen_guess_succ request.Size h1]
    · rw [if_neg h1] at hg
      simp only
      rw [hlen _ (by omega), hg]
  · simp only [createHashFinal, h0, if_false]
    split_ifs with h1
    · simp only [List.mem_cons, List.mem_singleton, List.not_mem_nil, or_false]
      rintro n (rfl | rfl) <;> omega
    · simp only [List.mem_singleton]
      rintro n rfl
      omega
  · intro h8
    have hn : ¬ request.Size % 4 = 1 := by omega
    have hg6 : 3 * request.Size / 4 = 6 := by omega
    simp only [createHashFinal, h0, hn, if_false, hg6]
    refine ⟨trivial, hk _ _ _ _ _ _ (by decide), ?_, h8⟩
    rw [EncodeToString_length, hk _ _ _ _ _ _ (by decide)]
    rfl

/-- Witness for the amended C10 at size `4294967293`, the largest size of residue 1. -/
theorem createHash_closed_form_witness :
    KDF.ExactNonzero zeroKDF ∧ nearTopRequest.Size < u32 ∧ 2 ≤ nearTopRequest.Size ∧
    ∃ st, createHashOrPanic zeroKDF 3 Response.zero nearTopRequest = .returned st ∧
      ((nearTopRequest.Size % 4 = 0 ∨ nearTopRequest.Size % 4 = 2 ∨
          nearTopRequest.Size % 4 = 3) →
        st.response.Size = nearTopRequest.Size ∧
        st.kdfCalls = [3 * nearTopRequest.Size / 4] ∧
        st.response.Hashed = EncodeToString (zeroKDF nearTopRequest.Password
          nearTopRequest.Salt DefaultParams.Iterations DefaultParams.Memory
          DefaultParams.Parallelism (3 * nearTopRequest.Size / 4))) ∧
      (nearTopRequest.Size % 4 = 1 →
        st.response.Size = nearTopRequest.Size + 1 ∧
        st.kdfCalls = [3 * nearTopRequest.Size / 4, 3 * nearTopRequest.Size / 4 + 1] ∧
        st.response.Hashed = EncodeToString (zeroKDF nearTopRequest.Password
          nearTopRequest.Salt DefaultParams.Iterations DefaultParams.Memory
          DefaultParams.Parallelism (3 * nearTopRequest.Size / 4 + 1))) ∧
      nearTopRequest.Size ≤ st.response.Size ∧
      st.response.Size ≤ nearTopRequest.Size + 1 ∧
      st.response.Size = st.response.Hashed.length ∧
      (∀ n ∈ st.kdfCalls, 1 ≤ n) ∧
      (nearTopRequest.Size = 8 →
        st.response.Hashed = EncodeToString (zeroKDF nearTopRequest.Password
          nearTopRequest.Salt DefaultParams.Iterations DefaultParams.Memory
          DefaultParams.Parallelism 6) ∧
        (zeroKDF nearTopRequest.Password nearTopRequest.Salt DefaultParams.Iterations
          DefaultParams.Memory DefaultParams.Parallelism 6).length = 6 ∧
        st.response.Hashed.length = 8 ∧ st.response.Size = 8) :=
  ⟨zeroKDF_exactNonzero, by decide, by decide,
    createHash_closed_form zeroKDF zeroKDF_exactNonzero nearTopRequest (by decide) (by decide) 3
      (by decide)⟩

end OnePass
